import Mathlib

/-!
Verification development for the tabular profiling and aggregation engine of
`dataAnalyzer.py`.  The script delegates every computation to pandas /
numpy / matplotlib calls inside its chart-button handlers; the definitions
below are shallow embeddings of exactly those library operations, with the
parameters the script passes, over exact rationals:

* column type inference — pandas `read_csv` dtype inference followed by the
  script's bool-to-string coercion (lines 35‑37) and
  `select_dtypes(include=np.number)` (line 85);
* `data.duplicated().sum()` (line 56);
* `data.describe()` numeric summaries (line 66): count, mean, sample std
  (ddof = 1, NaN when count ≤ 1), linear-interpolation quantiles;
* `data.groupby(x)[y].mean()` (line 125): group keys sorted ascending
  (pandas default `sort=True`), NaN keys dropped, NaN values skipped;
* `ax.hist(col.dropna(), bins=20)` (line 132): numpy equal-width binning,
  half-open bins with the last bin closed, degenerate range widened to
  `[v - 1/2, v + 1/2]`;
* `col.value_counts().head(10)` (line 139): NaN dropped (pandas default
  `dropna=True`), counts sorted descending, ties first-encountered;
* `data[numeric_cols].corr()` behind the `len(numeric_cols) > 1` guard
  (lines 146‑148): pairwise-complete Pearson correlation.

A table cell is either absent (NaN) or a parsed value; numbers are modelled
as rationals (exact real arithmetic), so the statements are about the ideal
real-number semantics of these operations.
-/

/-- A parsed cell of an ingested table: the absent marker (NaN) or a
numeric, string or boolean value. -/
inductive Cell where
  | absent : Cell
  | num : ℚ → Cell
  | str : String → Cell
  | boolean : Bool → Cell
deriving DecidableEq, Repr

/-- A table: ordered association list of column name to column cells.
The ingestion invariant (equal column lengths, unique names) is the
caller's responsibility, as in the script. -/
def Table : Type := List (String × List Cell)

/-- Look a column up by name; unknown names yield the empty column. -/
def getCol (t : Table) (c : String) : List Cell :=
  match t.find? (fun p => p.1 == c) with
  | some p => p.2
  | none => []

/-- The non-absent numeric values of a column, in row order.  This is the
effect of `dropna()` on a numeric column. -/
def numericVals (cells : List Cell) : List ℚ :=
  cells.filterMap (fun c => match c with | .num q => some q | _ => none)

/-- The column with absent cells kept as `none` and numeric cells as
`some` — the view pandas takes of a numeric column. -/
def optVals (cells : List Cell) : List (Option ℚ) :=
  cells.map (fun c => match c with | .num q => some q | _ => none)

/-- Mean of a list of rationals; `none` on the empty list (pandas returns
NaN there). -/
def meanOpt (l : List ℚ) : Option ℚ :=
  if l.isEmpty then none else some (l.sum / l.length)

/-- One insertion into a running list of distinct keys: keep the list if
the key was seen, append it otherwise. -/
def dedupStep (acc : List Cell) (x : Cell) : List Cell :=
  if x ∈ acc then acc else acc ++ [x]

/-- Distinct elements of a list in first-encountered order (the key order
of a pandas hash table before any sorting). -/
def dedupFE (l : List Cell) : List Cell :=
  l.foldl dedupStep []

/-- Column type as the script distinguishes it: bool dtype (line 36),
numeric dtype (line 85), or everything else (object dtype). -/
inductive ColumnType where
  | booleanCol : ColumnType
  | numeric : ColumnType
  | categorical : ColumnType
deriving DecidableEq, Repr

/-- Column classification as performed by pandas dtype inference on the
parsed file: a nonempty column of only boolean literals gets the bool
dtype; otherwise a nonempty column whose every cell is absent or numeric
gets a numeric dtype (an all-NaN nonempty column is float64); everything
else — including a zero-row column — is object dtype, i.e. categorical.
A column containing both boolean literals and absent cells is object
dtype (pre-nullable pandas cannot hold NaN in a bool column). -/
def classify (cells : List Cell) : ColumnType :=
  if cells.isEmpty then .categorical
  else if cells.all (fun c => match c with | .boolean _ => true | _ => false) then .booleanCol
  else if cells.all (fun c => match c with | .num _ => true | .absent => true | _ => false) then
    .numeric
  else .categorical

/-- Names of the columns of numeric dtype, in table order —
`data.select_dtypes(include=np.number).columns` (line 85). -/
def numericColNames (t : Table) : List String :=
  (t.filter (fun p => decide (classify p.2 = .numeric))).map (·.1)

/-- The rows of the table as ordered tuples of cells. -/
def rowsOf (t : Table) : List (List Cell) :=
  (t.map (·.2)).transpose

/-- Core of `data.duplicated().sum()` (line 56): scan the rows front to
back, counting a row iff its tuple was already seen. -/
def dupCount (seen : List (List Cell)) : List (List Cell) → ℕ
  | [] => 0
  | r :: rest => (if r ∈ seen then 1 else 0) + dupCount (r :: seen) rest

/-- Number of rows equal to some strictly earlier row —
`data.duplicated().sum()` (line 56). -/
def duplicateRowCount (t : Table) : ℕ :=
  dupCount [] (rowsOf t)

/-- Ascending sort of rationals (the sorted order numpy/pandas quantile
computations work over). -/
def sortQ (l : List ℚ) : List ℚ :=
  List.insertionSort (· ≤ ·) l

/-- Linear-interpolation quantile over an ascending-sorted list, the
pandas default method: position `(n-1)*p`, value
`s[i] + frac * (s[i+1] - s[i])` with `i = floor(position)`.  `none` on an
empty list (pandas NaN). -/
def quantileSorted (s : List ℚ) (p : ℚ) : Option ℚ :=
  if s.isEmpty then none
  else
    let n := s.length
    let pos : ℚ := ((n : ℚ) - 1) * p
    let i : ℕ := Int.toNat ⌊pos⌋
    let frac : ℚ := pos - (i : ℚ)
    if i + 1 < n then some (s.getD i 0 + frac * (s.getD (i + 1) 0 - s.getD i 0))
    else some (s.getD i 0)

/-- Quantile of a list of values, pandas `Series.quantile(p)`. -/
def quantileQ (l : List ℚ) (p : ℚ) : Option ℚ :=
  quantileSorted (sortQ l) p

/-- Sample variance, pandas `Series.var()` with `ddof = 1`: `none` (NaN)
when fewer than two observations. -/
def sampleVar (l : List ℚ) : Option ℚ :=
  if l.length ≤ 1 then none
  else some ((l.map (fun x => (x - l.sum / l.length) ^ 2)).sum / ((l.length : ℚ) - 1))

/-- The numeric rows of `data.describe()` (line 66) for one column. -/
structure NumericSummary where
  count : ℕ
  mean : Option ℚ
  std : Option ℝ
  minV : Option ℚ
  q1 : Option ℚ
  median : Option ℚ
  q3 : Option ℚ
  maxV : Option ℚ

/-- Numeric summary of a column as `data.describe()` produces it:
statistics over the non-absent values, sample standard deviation
(NaN when count ≤ 1), linear-interpolation quartiles. -/
noncomputable def summarizeNumeric (cells : List Cell) : NumericSummary :=
  let vals := numericVals cells
  { count := vals.length
    mean := meanOpt vals
    std := (sampleVar vals).map Real.sqrt
    minV := quantileQ vals 0
    q1 := quantileQ vals (1 / 4)
    median := quantileQ vals (1 / 2)
    q3 := quantileQ vals (3 / 4)
    maxV := quantileQ vals 1 }

/-- Occurrences of a value in a column. -/
def countOcc (cells : List Cell) (k : Cell) : ℕ :=
  (cells.filter (fun c => decide (c = k))).length

/-- Descending-by-count order on frequency entries; the sort order of
`value_counts()`. -/
def freqGe (p q : Cell × ℕ) : Prop :=
  q.2 ≤ p.2

instance : DecidableRel freqGe := fun p q => inferInstanceAs (Decidable (q.2 ≤ p.2))

instance : IsTotal (Cell × ℕ) freqGe := ⟨fun p q => le_total q.2 p.2⟩

instance : IsTrans (Cell × ℕ) freqGe := ⟨fun _ _ _ h1 h2 => le_trans h2 h1⟩

/-- Embedding of `Series.value_counts()` (line 139): drop NaN (pandas
default `dropna=True`), count each distinct value, sort descending by
count; insertion sort keeps ties in first-encountered order. -/
def valueCounts (cells : List Cell) : List (Cell × ℕ) :=
  let present := cells.filter (fun c => decide (c ≠ .absent))
  List.insertionSort freqGe ((dedupFE present).map (fun k => (k, countOcc present k)))

/-- Embedding of `value_counts().head(n)` (line 139, with n = 10). -/
def topNFrequency (cells : List Cell) (n : ℕ) : List (Cell × ℕ) :=
  (valueCounts cells).take n

/-- Rank of the cell constructor, used to make comparisons between cells
of different kinds total (a parsed homogeneous column only ever compares
cells of one kind). -/
def cellRank : Cell → ℕ
  | .absent => 0
  | .num _ => 1
  | .str _ => 2
  | .boolean _ => 3

/-- Total comparison on cells: payload order within one kind, rank order
across kinds. -/
def cellLeb : Cell → Cell → Bool
  | .num p, .num q => decide (p ≤ q)
  | .str s, .str t => decide (s ≤ t)
  | .boolean x, .boolean y => decide (x ≤ y)
  | a, b => decide (cellRank a ≤ cellRank b)

/-- The propositional form of `cellLeb`; ascending group-key order used by
`groupby(...).mean()` (pandas default `sort=True`). -/
def cellLe (a b : Cell) : Prop :=
  cellLeb a b = true

instance : DecidableRel cellLe := fun a b => inferInstanceAs (Decidable (cellLeb a b = true))

instance : IsTotal Cell cellLe := by
  constructor
  intro a b
  cases a <;> cases b <;> simp [cellLe, cellLeb, cellRank] <;>
    exact le_total _ _

instance : IsTrans Cell cellLe := by
  constructor
  intro a b c h1 h2
  cases a <;> cases b <;> cases c <;>
    simp_all [cellLe, cellLeb, cellRank] <;>
    exact le_trans h1 h2

/-- Embedding of `data.groupby(x)[y].mean()` (line 125): group keys are
the distinct non-absent values of the group-by column sorted ascending
(pandas `sort=True`, `dropna=True`); each group's value is the mean of the
non-absent value-column cells of its rows (NaN skipped; `none` when a
group has no observation). -/
def groupMeans (t : Table) (g v : String) : List Cell × List (Option ℚ) :=
  let gcol := getCol t g
  let vcol := getCol t v
  let keys := List.insertionSort cellLe (dedupFE (gcol.filter (fun c => decide (c ≠ .absent))))
  (keys,
   keys.map (fun k =>
     meanOpt (numericVals ((gcol.zip vcol).filterMap
       (fun p => if p.1 = k then some p.2 else none)))))

/-- Bin range of `numpy.histogram`: `(min, max)` of the data, widened to
`(v - 1/2, v + 1/2)` when all values coincide and to `(0, 1)` on empty
data. -/
def histBounds (vals : List ℚ) : ℚ × ℚ :=
  match vals with
  | [] => (0, 1)
  | v :: vs =>
    let lo := vs.foldl min v
    let hi := vs.foldl max v
    if lo = hi then (lo - 1 / 2, lo + 1 / 2) else (lo, hi)

/-- Membership of value `v` in bin `i` of `bc` equal-width bins of width
`w` starting at `lo`: half-open `[edge i, edge (i+1))`, except the last
bin which is closed on both ends — numpy's binning rule. -/
def binHit (lo w : ℚ) (bc i : ℕ) (v : ℚ) : Prop :=
  lo + (i : ℚ) * w ≤ v ∧
    (if i + 1 = bc then v ≤ lo + (bc : ℚ) * w else v < lo + ((i : ℚ) + 1) * w)

instance (lo w : ℚ) (bc i : ℕ) (v : ℚ) : Decidable (binHit lo w bc i v) :=
  inferInstanceAs (Decidable (_ ∧ _))

/-- Embedding of `ax.hist(col.dropna(), bins=bc)` (line 132), i.e.
`numpy.histogram` with `bc` requested bins: returns the bin edges and the
per-bin counts. -/
def histogram (cells : List Cell) (bc : ℕ) : List ℚ × List ℕ :=
  let vals := numericVals cells
  let b := histBounds vals
  let w := (b.2 - b.1) / (bc : ℚ)
  ((List.range (bc + 1)).map (fun i => b.1 + (i : ℚ) * w),
   (List.range bc).map (fun i =>
     (vals.filter (fun v => decide (binHit b.1 w bc i v))).length))

/-! ### Lemmas about first-encountered deduplication -/

theorem mem_dedupStep {a x : Cell} {acc : List Cell} :
    a ∈ dedupStep acc x ↔ a ∈ acc ∨ a = x := by
  unfold dedupStep
  by_cases hx : x ∈ acc
  · rw [if_pos hx]
    constructor
    · exact Or.inl
    · rintro (h | rfl)
      · exact h
      · exact hx
  · rw [if_neg hx]
    simp

theorem mem_foldl_dedupStep {a : Cell} :
    ∀ (l acc : List Cell), a ∈ l.foldl dedupStep acc ↔ a ∈ acc ∨ a ∈ l := by
  intro l
  induction l with
  | nil => intro acc; simp
  | cons x xs ih =>
    intro acc
    rw [List.foldl_cons, ih, mem_dedupStep, List.mem_cons]
    tauto

theorem mem_dedupFE {a : Cell} {l : List Cell} : a ∈ dedupFE l ↔ a ∈ l := by
  unfold dedupFE
  rw [mem_foldl_dedupStep]
  simp

theorem nodup_foldl_dedupStep :
    ∀ (l acc : List Cell), acc.Nodup → (l.foldl dedupStep acc).Nodup := by
  intro l
  induction l with
  | nil => intro acc h; simpa using h
  | cons x xs ih =>
    intro acc h
    rw [List.foldl_cons]
    apply ih
    unfold dedupStep
    by_cases hx : x ∈ acc
    · rwa [if_pos hx]
    · rw [if_neg hx]
      simpa [List.nodup_append] using ⟨h, hx⟩

theorem nodup_dedupFE (l : List Cell) : (dedupFE l).Nodup :=
  nodup_foldl_dedupStep l [] List.nodup_nil

/-! ### Lemmas about fold-based minimum and maximum -/

theorem foldl_min_le_init : ∀ (l : List ℚ) (a : ℚ), l.foldl min a ≤ a := by
  intro l
  induction l with
  | nil => intro a; simp
  | cons x l ih =>
    intro a
    calc (x :: l).foldl min a = l.foldl min (min a x) := by simp [List.foldl_cons]
    _ ≤ min a x := ih _
    _ ≤ a := min_le_left _ _

theorem foldl_min_le_mem {x : ℚ} : ∀ {l : List ℚ} (a : ℚ), x ∈ l → l.foldl min a ≤ x := by
  intro l
  induction l with
  | nil => intro a h; simp at h
  | cons y l ih =>
    intro a h
    rcases List.mem_cons.1 h with rfl | h
    · calc (x :: l).foldl min a = l.foldl min (min a x) := by simp [List.foldl_cons]
      _ ≤ min a x := foldl_min_le_init _ _
      _ ≤ x := min_le_right _ _
    · exact ih _ h

theorem init_le_foldl_max : ∀ (l : List ℚ) (a : ℚ), a ≤ l.foldl max a := by
  intro l
  induction l with
  | nil => intro a; simp
  | cons x l ih =>
    intro a
    calc a ≤ max a x := le_max_left _ _
    _ ≤ l.foldl max (max a x) := ih _
    _ = (x :: l).foldl max a := by simp [List.foldl_cons]

theorem mem_le_foldl_max {x : ℚ} : ∀ {l : List ℚ} (a : ℚ), x ∈ l → x ≤ l.foldl max a := by
  intro l
  induction l with
  | nil => intro a h; simp at h
  | cons y l ih =>
    intro a h
    rcases List.mem_cons.1 h with rfl | h
    · calc x ≤ max a x := le_max_right _ _
      _ ≤ l.foldl max (max a x) := init_le_foldl_max _ _
      _ = (x :: l).foldl max a := by simp [List.foldl_cons]
    · exact ih _ h

/-! ### The histogram bounds enclose the data and are nondegenerate -/

theorem histBounds_fst_lt_snd (vals : List ℚ) : (histBounds vals).1 < (histBounds vals).2 := by
  match vals with
  | [] => norm_num [histBounds]
  | v :: vs =>
    rw [histBounds]
    by_cases h : vs.foldl min v = vs.foldl max v
    · simp only [h, if_pos]
      linarith
    · simp only [h, if_neg, if_false]
      have h1 : vs.foldl min v ≤ v := foldl_min_le_init vs v
      have h2 : v ≤ vs.foldl max v := init_le_foldl_max vs v
      exact lt_of_le_of_ne (by linarith) h

theorem histBounds_le {vals : List ℚ} {v : ℚ} (hv : v ∈ vals) :
    (histBounds vals).1 ≤ v ∧ v ≤ (histBounds vals).2 := by
  match vals with
  | [] => simp at hv
  | w :: ws =>
    have h1 : ws.foldl min w ≤ v := by
      rcases List.mem_cons.1 hv with rfl | h
      · exact foldl_min_le_init ws v
      · exact foldl_min_le_mem _ h
    have h2 : v ≤ ws.foldl max w := by
      rcases List.mem_cons.1 hv with rfl | h
      · exact init_le_foldl_max ws v
      · exact mem_le_foldl_max _ h
    rw [histBounds]
    by_cases h : ws.foldl min w = ws.foldl max w
    · simp only [h, if_pos]
      constructor <;> [linarith; linarith]
    · simp only [h, if_neg, if_false]
      exact ⟨h1, h2⟩

/-! ### Each value lands in exactly one histogram bin -/

theorem binHit_disjoint {lo w : ℚ} {bc i j : ℕ} {v : ℚ} (hw : 0 < w)
    (hij : i < j) (hj : j < bc)
    (h1 : binHit lo w bc i v) (h2 : binHit lo w bc j v) : False := by
  have hib : ¬ (i + 1 = bc) := by omega
  have hv1 : v < lo + ((i : ℚ) + 1) * w := by
    have := h1.2
    rwa [if_neg hib] at this
  have hv2 : lo + (j : ℚ) * w ≤ v := h2.1
  have hcast : ((i : ℚ) + 1) ≤ (j : ℚ) := by exact_mod_cast hij
  nlinarith

theorem binHit_existsUnique {lo hi : ℚ} {bc : ℕ} {v : ℚ}
    (hbc : 1 ≤ bc) (hlohi : lo < hi) (hv1 : lo ≤ v) (hv2 : v ≤ hi) :
    ∃! i, i < bc ∧ binHit lo ((hi - lo) / (bc : ℚ)) bc i v := by
  set w : ℚ := (hi - lo) / (bc : ℚ) with hwdef
  have hbcQ : (0 : ℚ) < (bc : ℚ) := by exact_mod_cast Nat.lt_of_lt_of_le Nat.zero_lt_one hbc
  have hw : 0 < w := div_pos (by linarith) hbcQ
  have hedge : lo + (bc : ℚ) * w = hi := by
    rw [hwdef]
    field_simp
  set t : ℚ := (v - lo) / w with htdef
  have ht0 : 0 ≤ t := div_nonneg (by linarith) hw.le
  have htv : lo + t * w = v := by
    rw [htdef]
    field_simp
  have hfl0 : (0 : ℤ) ≤ ⌊t⌋ := Int.floor_nonneg.2 ht0
  have hcastfl : ((Int.toNat ⌊t⌋ : ℕ) : ℚ) = ((⌊t⌋ : ℤ) : ℚ) := by
    exact_mod_cast Int.toNat_of_nonneg hfl0
  have htub : t ≤ (bc : ℚ) := by
    rw [htdef, div_le_iff₀ hw]
    nlinarith [hedge]
  have main : ∃ i, i < bc ∧ binHit lo w bc i v := by
    by_cases hcase : bc - 1 ≤ Int.toNat ⌊t⌋
    · refine ⟨bc - 1, by omega, ?_, ?_⟩
      · have hc1 : ((bc - 1 : ℕ) : ℚ) ≤ t := by
          calc ((bc - 1 : ℕ) : ℚ) ≤ ((Int.toNat ⌊t⌋ : ℕ) : ℚ) := by exact_mod_cast hcase
          _ = ((⌊t⌋ : ℤ) : ℚ) := hcastfl
          _ ≤ t := Int.floor_le t
        have := mul_le_mul_of_nonneg_right hc1 hw.le
        linarith [htv]
      · rw [if_pos (by omega : bc - 1 + 1 = bc)]
        rw [hedge]
        exact hv2
    · push_neg at hcase
      refine ⟨Int.toNat ⌊t⌋, by omega, ?_, ?_⟩
      · have hc1 : ((Int.toNat ⌊t⌋ : ℕ) : ℚ) ≤ t := by
          rw [hcastfl]
          exact Int.floor_le t
        have := mul_le_mul_of_nonneg_right hc1 hw.le
        linarith [htv]
      · rw [if_neg (by omega : ¬ (Int.toNat ⌊t⌋ + 1 = bc))]
        have hc2 : t < ((Int.toNat ⌊t⌋ : ℕ) : ℚ) + 1 := by
          rw [hcastfl]
          exact_mod_cast Int.lt_floor_add_one t
        have := mul_lt_mul_of_pos_right hc2 hw
        linarith [htv]
  obtain ⟨i0, hi0, hhit0⟩ := main
  refine ⟨i0, ⟨hi0, hhit0⟩, ?_⟩
  intro j hj
  rcases lt_trichotomy j i0 with h | h | h
  · exact absurd (binHit_disjoint hw h hi0 hj.2 hhit0) not_false
  · exact h
  · exact absurd (binHit_disjoint hw h hj.1 hhit0 hj.2) not_false

/-! ### Partition counting: the per-bin counts add up to the data size -/

theorem range_map_sum (f : ℕ → ℕ) (n : ℕ) :
    ((List.range n).map f).sum = ∑ i in Finset.range n, f i := by
  induction n with
  | zero => simp
  | succ n ih => simp [List.range_succ, Finset.sum_range_succ, ih]

theorem count_partition (bc : ℕ) (p : ℕ → ℚ → Prop) [∀ i v, Decidable (p i v)]
    (l : List ℚ) (h : ∀ v ∈ l, ∃! i, i < bc ∧ p i v) :
    ((List.range bc).map (fun i => (l.filter (fun v => decide (p i v))).length)).sum
      = l.length := by
  induction l with
  | nil => rw [range_map_sum]; simp
  | cons v l ih =>
    have hv := h v (List.mem_cons_self v l)
    have hl : ∀ x ∈ l, ∃! i, i < bc ∧ p i x := fun x hx => h x (List.mem_cons_of_mem _ hx)
    rw [range_map_sum] at ih ⊢
    have hsplit : ∀ i : ℕ,
        ((v :: l).filter (fun x => decide (p i x))).length
          = (if p i v then 1 else 0) + (l.filter (fun x => decide (p i x))).length := by
      intro i
      by_cases hp : p i v <;> simp [List.filter_cons, hp, Nat.add_comm]
    calc ∑ i in Finset.range bc, ((v :: l).filter (fun x => decide (p i x))).length
        = ∑ i in Finset.range bc,
            ((if p i v then 1 else 0) + (l.filter (fun x => decide (p i x))).length) :=
          Finset.sum_congr rfl (fun i _ => hsplit i)
      _ = (∑ i in Finset.range bc, (if p i v then 1 else 0))
            + ∑ i in Finset.range bc, (l.filter (fun x => decide (p i x))).length :=
          Finset.sum_add_distrib
      _ = 1 + l.length := by
          rw [ih hl]
          congr 1
          obtain ⟨i0, ⟨hi0, hp0⟩, huniq⟩ := hv
          rw [Finset.sum_boole]
          have : (Finset.range bc).filter (fun i => p i v) = {i0} := by
            apply Finset.eq_singleton_iff_unique_mem.2
            constructor
            · exact Finset.mem_filter.2 ⟨Finset.mem_range.2 hi0, hp0⟩
            · intro j hj
              have hj' := Finset.mem_filter.1 hj
              exact huniq j ⟨Finset.mem_range.1 hj'.1, hj'.2⟩
          rw [this]
          simp
      _ = (v :: l).length := by simp [Nat.add_comm]

/-- The histogram's per-bin counts always total the number of retained
(non-absent numeric) values, for any positive bin count. -/
theorem hist_counts_sum (cells : List Cell) (bc : ℕ) (hbc : 1 ≤ bc) :
    (histogram cells bc).2.sum = (numericVals cells).length := by
  unfold histogram
  apply count_partition
  intro v hv
  exact binHit_existsUnique hbc (histBounds_fst_lt_snd (numericVals cells))
    (histBounds_le hv).1 (histBounds_le hv).2

/-! ### Pearson correlation, `data[numeric_cols].corr()` (line 148) -/

/-- The rows where both series are observed — pandas computes each
correlation entry over pairwise-complete observations. -/
def pairedObs (xs ys : List (Option ℚ)) : List (ℚ × ℚ) :=
  (xs.zip ys).filterMap
    (fun p => match p with | (some a, some b) => some (a, b) | _ => none)

/-- Sample covariance (ddof = 1) of a list of paired observations; with a
denominator of zero the Lean convention `x / 0 = 0` applies (pandas would
produce NaN there, which no claim touches). -/
def covQ (ps : List (ℚ × ℚ)) : ℚ :=
  let n := ps.length
  let mx := (ps.map (·.1)).sum / (n : ℚ)
  let my := (ps.map (·.2)).sum / (n : ℚ)
  (ps.map (fun p => (p.1 - mx) * (p.2 - my))).sum / ((n : ℚ) - 1)

/-- Sample variance of the first coordinates of paired observations. -/
def varFst (ps : List (ℚ × ℚ)) : ℚ :=
  covQ (ps.map (fun p => (p.1, p.1)))

/-- Sample variance of the second coordinates of paired observations. -/
def varSnd (ps : List (ℚ × ℚ)) : ℚ :=
  covQ (ps.map (fun p => (p.2, p.2)))

/-- Pearson correlation of two optional series over their
pairwise-complete observations, `cov / (std_x * std_y)`. -/
noncomputable def pearson (xs ys : List (Option ℚ)) : ℝ :=
  ((covQ (pairedObs xs ys) : ℚ) : ℝ) /
    (Real.sqrt ((varFst (pairedObs xs ys) : ℚ) : ℝ) *
      Real.sqrt ((varSnd (pairedObs xs ys) : ℚ) : ℝ))

/-- Error taxonomy of the chart handlers: the heatmap handler's
"Need at least 2 numeric columns" warning path (line 158). -/
inductive AnalyzeError where
  | insufficientColumns : AnalyzeError
deriving DecidableEq, Repr

/-- The full correlation matrix `data[numeric_cols].corr()` over the
selected columns. -/
noncomputable def corrMatrixRaw (t : Table) (cols : List String) : List (List ℝ) :=
  cols.map (fun c1 => cols.map (fun c2 =>
    pearson (optVals (getCol t c1)) (optVals (getCol t c2))))

/-- The heatmap handler (lines 145‑158): the correlation matrix is only
computed behind the `len(numeric_cols) > 1` guard; otherwise the handler
reports the recoverable insufficient-columns condition and produces no
matrix. -/
noncomputable def correlationMatrix (t : Table) (cols : List String) :
    Except AnalyzeError (List (List ℝ)) :=
  if 1 < cols.length then .ok (corrMatrixRaw t cols)
  else .error .insufficientColumns

theorem pairedObs_swap (xs ys : List (Option ℚ)) :
    pairedObs ys xs = (pairedObs xs ys).map Prod.swap := by
  unfold pairedObs
  rw [← List.zip_swap xs ys, List.filterMap_map, List.map_filterMap]
  apply List.filterMap_congr
  intro p _
  rcases p with ⟨a | a, b | b⟩ <;> rfl

theorem covQ_map_swap (ps : List (ℚ × ℚ)) : covQ (ps.map Prod.swap) = covQ ps := by
  unfold covQ
  simp only [List.length_map, List.map_map]
  have h1 : ((·.1) ∘ Prod.swap : ℚ × ℚ → ℚ) = (·.2) := rfl
  have h2 : ((·.2) ∘ Prod.swap : ℚ × ℚ → ℚ) = (·.1) := rfl
  rw [h1, h2]
  set mx := (ps.map (·.1)).sum / ((ps.length : ℚ))
  set my := (ps.map (·.2)).sum / ((ps.length : ℚ))
  have h3 : ((fun p : ℚ × ℚ => (p.1 - my) * (p.2 - mx)) ∘ Prod.swap)
      = fun p : ℚ × ℚ => (p.1 - mx) * (p.2 - my) := by
    funext p
    show (p.2 - my) * (p.1 - mx) = (p.1 - mx) * (p.2 - my)
    ring
  rw [h3]

theorem varFst_map_swap (ps : List (ℚ × ℚ)) : varFst (ps.map Prod.swap) = varSnd ps := by
  unfold varFst varSnd
  rw [List.map_map]
  rfl

theorem varSnd_map_swap (ps : List (ℚ × ℚ)) : varSnd (ps.map Prod.swap) = varFst ps := by
  unfold varFst varSnd
  rw [List.map_map]
  rfl

theorem pearson_comm (xs ys : List (Option ℚ)) : pearson xs ys = pearson ys xs := by
  unfold pearson
  rw [pairedObs_swap xs ys, covQ_map_swap, varFst_map_swap, varSnd_map_swap, mul_comm]

theorem mem_zip_self {α : Type} {p : α × α} : ∀ {l : List α}, p ∈ l.zip l → p.1 = p.2 := by
  intro l
  induction l with
  | nil => intro h; simp [List.zip] at h
  | cons x l ih =>
    intro h
    rcases List.mem_cons.1 h with rfl | h
    · rfl
    · exact ih h

theorem pairedObs_self_diag {xs : List (Option ℚ)} {p : ℚ × ℚ}
    (hp : p ∈ pairedObs xs xs) : p.1 = p.2 := by
  unfold pairedObs at hp
  obtain ⟨⟨a1, a2⟩, ha, hfa⟩ := List.mem_filterMap.1 hp
  have hd : a1 = a2 := mem_zip_self ha
  subst hd
  cases a1 with
  | none => simp at hfa
  | some a =>
    simp only [] at hfa
    injection hfa with h
    rw [← h]

theorem varFst_pairedObs_self (xs : List (Option ℚ)) :
    varFst (pairedObs xs xs) = covQ (pairedObs xs xs) := by
  unfold varFst
  congr 1
  have : ∀ p ∈ pairedObs xs xs, (fun p : ℚ × ℚ => (p.1, p.1)) p = id p := by
    intro p hp
    have := pairedObs_self_diag hp
    simp only [id]
    exact Prod.ext rfl this
  rw [List.map_congr_left this, List.map_id]

theorem varSnd_pairedObs_self (xs : List (Option ℚ)) :
    varSnd (pairedObs xs xs) = covQ (pairedObs xs xs) := by
  unfold varSnd
  congr 1
  have : ∀ p ∈ pairedObs xs xs, (fun p : ℚ × ℚ => (p.2, p.2)) p = id p := by
    intro p hp
    have := pairedObs_self_diag hp
    simp only [id]
    exact Prod.ext this.symm rfl
  rw [List.map_congr_left this, List.map_id]

theorem pearson_self {xs : List (Option ℚ)} (h : 0 < varFst (pairedObs xs xs)) :
    pearson xs xs = 1 := by
  unfold pearson
  rw [varFst_pairedObs_self, varSnd_pairedObs_self]
  rw [varFst_pairedObs_self xs] at h
  have hpos : (0 : ℝ) < ((covQ (pairedObs xs xs) : ℚ) : ℝ) := by exact_mod_cast h
  rw [Real.mul_self_sqrt hpos.le]
  exact div_self (ne_of_gt hpos)

/-! ### The chart-button handlers (lines 108‑158) as a dispatch function -/

/-- The six chart buttons. -/
inductive ChartKind where
  | line : ChartKind
  | bar : ChartKind
  | scatter : ChartKind
  | hist : ChartKind
  | pie : ChartKind
  | heatmap : ChartKind
deriving DecidableEq, Repr

/-- The structured, chart-ready data each handler computes before
rendering. -/
inductive ChartResult where
  | paired : List Cell → List Cell → ChartResult
  | grouped : List Cell → List (Option ℚ) → ChartResult
  | binned : List ℚ → List ℕ → ChartResult
  | ranked : List (Cell × ℕ) → ChartResult
  | heat : Except AnalyzeError (List (List ℝ)) → ChartResult

/-- What each chart-button handler computes from the table and the
selected axes: line/scatter pass the raw columns (lines 111, 118), bar
runs the group-by mean (line 125), histogram bins the y column with 20
bins (line 132), pie takes the top-10 value counts of the x column
(line 139), heatmap computes the correlation matrix over the numeric
columns behind its arity guard (lines 146‑158). -/
noncomputable def renderChart (t : Table) (x y : String) : ChartKind → ChartResult
  | .line => .paired (getCol t x) (getCol t y)
  | .scatter => .paired (getCol t x) (getCol t y)
  | .bar => .grouped (groupMeans t x y).1 (groupMeans t x y).2
  | .hist => .binned (histogram (getCol t y) 20).1 (histogram (getCol t y) 20).2
  | .pie => .ranked (topNFrequency (getCol t x) 10)
  | .heatmap => .heat (correlationMatrix t (numericColNames t))

/-- The application state the handlers can see: the ingested table.  The
handler bodies read `data` and never assign to it, so a handler call
returns its chart data together with the unchanged state. -/
structure AppState where
  data : Table

/-- One button click: compute the chart data from the current state; the
state afterwards is the state before (no handler mutates `data`). -/
noncomputable def handleClick (s : AppState) (k : ChartKind) (x y : String) :
    ChartResult × AppState :=
  (renderChart s.data x y k, s)

/-! ### Characterization of the duplicate-row scan -/

theorem dupCount_eq_countP (l : List (List Cell)) : ∀ seen,
    dupCount seen l = (List.range l.length).countP
      (fun i => decide (l.getD i [] ∈ seen ∨ l.getD i [] ∈ l.take i)) := by
  induction l with
  | nil => intro seen; simp [dupCount]
  | cons r rest ih =>
    intro seen
    rw [dupCount, List.length_cons, List.range_succ_eq_map, List.countP_cons, List.countP_map]
    have hshift : ((fun i => decide ((r :: rest).getD i [] ∈ seen ∨ (r :: rest).getD i [] ∈
        (r :: rest).take i)) ∘ Nat.succ)
        = fun i => decide (rest.getD i [] ∈ (r :: seen) ∨ rest.getD i [] ∈ rest.take i) := by
      funext i
      simp only [Function.comp_apply, List.getD_cons_succ, List.take_succ_cons]
      rw [decide_eq_decide]
      simp only [List.mem_cons]
      tauto
    rw [hshift, ← ih (r :: seen)]
    by_cases hr : r ∈ seen <;> simp [hr, Nat.add_comm]

theorem dupCount_replicate_mem {r : List Cell} {seen : List (List Cell)}
    (h : r ∈ seen) : ∀ m, dupCount seen (List.replicate m r) = m := by
  intro m
  induction m generalizing seen with
  | zero => simp [List.replicate, dupCount]
  | succ m ih =>
    rw [List.replicate_succ, dupCount, if_pos h]
    rw [ih (List.mem_cons_of_mem _ h)]
    omega

theorem dupCount_replicate (r : List Cell) (k : ℕ) (hk : 1 ≤ k) :
    dupCount [] (List.replicate k r) = k - 1 := by
  obtain ⟨m, rfl⟩ : ∃ m, k = m + 1 := ⟨k - 1, by omega⟩
  rw [List.replicate_succ, dupCount]
  simp only [List.not_mem_nil, if_neg, if_false]
  rw [dupCount_replicate_mem (List.mem_cons_self r []) m]
  omega

/-! ### Helper characterizations for classification -/

theorem isBoolCell_iff (c : Cell) :
    ((match c with | Cell.boolean _ => true | _ => false) = true) ↔ ∃ b, c = Cell.boolean b := by
  cases c <;> simp

theorem isNumAbsCell_iff (c : Cell) :
    ((match c with | Cell.num _ => true | Cell.absent => true | _ => false) = true)
      ↔ (c = Cell.absent ∨ ∃ q, c = Cell.num q) := by
  cases c <;> simp

/-! ### Claim C1 -/

/-- C1: with fewer than two numeric columns selected, the heatmap handler
reports the recoverable `InsufficientColumns` condition and produces no
correlation matrix; in particular this happens for exactly one numeric
column. -/
theorem C1_correlation_insufficient_columns (t : Table) (cols : List String)
    (h : cols.length < 2) :
    correlationMatrix t cols = Except.error AnalyzeError.insufficientColumns := by
  unfold correlationMatrix
  rw [if_neg (by omega)]

theorem C1_correlation_insufficient_columns_witness :
    (["a"] : List String).length < 2 ∧
      correlationMatrix [("a", [Cell.num 1, Cell.num 2])] ["a"]
        = Except.error AnalyzeError.insufficientColumns :=
  ⟨by decide, C1_correlation_insufficient_columns [("a", [Cell.num 1, Cell.num 2])] ["a"]
    (by decide)⟩

/-! ### Claim C7 -/

/-- C7: `duplicated().sum()` counts exactly the rows whose full value
tuple already occurred at a strictly earlier row index (first occurrences
are never counted); a table whose rows are k copies of one row has
duplicate count k − 1. -/
theorem C7_duplicate_row_count :
    (∀ t : Table, duplicateRowCount t
        = (List.range (rowsOf t).length).countP
            (fun i => decide ((rowsOf t).getD i [] ∈ (rowsOf t).take i))) ∧
      (∀ (t : Table) (r : List Cell) (k : ℕ), 1 ≤ k → rowsOf t = List.replicate k r →
        duplicateRowCount t = k - 1) := by
  constructor
  · intro t
    unfold duplicateRowCount
    rw [dupCount_eq_countP]
    apply List.countP_congr
    intro i _
    simp
  · intro t r k hk hrep
    unfold duplicateRowCount
    rw [hrep]
    exact dupCount_replicate r k hk

theorem C7_duplicate_row_count_witness :
    1 ≤ 3 ∧
      rowsOf [("a", [Cell.num 1, Cell.num 1, Cell.num 1])] = List.replicate 3 [Cell.num 1] ∧
      duplicateRowCount [("a", [Cell.num 1, Cell.num 1, Cell.num 1])] = 3 - 1 :=
  ⟨by decide, by decide,
    C7_duplicate_row_count.2 [("a", [Cell.num 1, Cell.num 1, Cell.num 1])] [Cell.num 1] 3
      (by decide) (by decide)⟩

/-! ### Claim C4 -/

/-- C4 as stated is false on the code: pandas infers a nonempty all-absent
column as float64, so it lands among the numeric columns, not the
categorical ones; and a column of boolean literals with an absent cell
cannot be a bool column (object dtype instead), so "every non-absent cell
boolean" does not give Boolean. -/
theorem C4_classify_counterexample :
    classify [Cell.absent] = ColumnType.numeric ∧
      classify [Cell.absent] ≠ ColumnType.categorical ∧
      classify [Cell.boolean true, Cell.absent] = ColumnType.categorical ∧
      classify [Cell.boolean true, Cell.absent] ≠ ColumnType.booleanCol := by
  decide

/-- C4 (amended): classification checks boolean before numeric, first
match wins, and never fails; a nonempty column of only boolean literals
(no absent cells) is Boolean; a nonempty column that is not all-boolean
and whose every cell is absent or numeric — including a nonempty
all-absent column — is Numeric; everything else, and the empty column, is
Categorical.  The claim's concrete instances [true,false,true] → Boolean,
[1,2,3] → Numeric, ["a","b","a"] → Categorical hold. -/
theorem C4_classify_amended :
    (∀ cells : List Cell, cells ≠ [] → (∀ c ∈ cells, ∃ b, c = Cell.boolean b) →
        classify cells = ColumnType.booleanCol) ∧
      (∀ cells : List Cell, cells ≠ [] → ¬ (∀ c ∈ cells, ∃ b, c = Cell.boolean b) →
        (∀ c ∈ cells, c = Cell.absent ∨ ∃ q, c = Cell.num q) →
        classify cells = ColumnType.numeric) ∧
      (∀ cells : List Cell, ¬ (∀ c ∈ cells, ∃ b, c = Cell.boolean b) →
        ¬ (∀ c ∈ cells, c = Cell.absent ∨ ∃ q, c = Cell.num q) →
        classify cells = ColumnType.categorical) ∧
      (∀ cells : List Cell,
        classify cells = ColumnType.booleanCol ∨ classify cells = ColumnType.numeric ∨
          classify cells = ColumnType.categorical) ∧
      classify [Cell.boolean true, Cell.boolean false, Cell.boolean true]
          = ColumnType.booleanCol ∧
      classify [Cell.num 1, Cell.num 2, Cell.num 3] = ColumnType.numeric ∧
      classify [Cell.str "a", Cell.str "b", Cell.str "a"] = ColumnType.categorical ∧
      classify [Cell.absent] = ColumnType.numeric ∧
      classify ([] : List Cell) = ColumnType.categorical := by
  refine ⟨?_, ?_, ?_, ?_, by decide, by decide, by decide, by decide, by decide⟩
  · intro cells hne hall
    unfold classify
    rw [if_neg (by simpa [List.isEmpty_iff] using hne)]
    rw [if_pos (List.all_eq_true.2 (fun c hc => (isBoolCell_iff c).2 (hall c hc)))]
  · intro cells hne hnotbool hnum
    unfold classify
    rw [if_neg (by simpa [List.isEmpty_iff] using hne)]
    rw [if_neg (fun hcon => hnotbool
      (fun c hc => (isBoolCell_iff c).1 (List.all_eq_true.1 hcon c hc)))]
    rw [if_pos (List.all_eq_true.2 (fun c hc => (isNumAbsCell_iff c).2 (hnum c hc)))]
  · intro cells hnotbool hnotnum
    unfold classify
    by_cases hemp : cells.isEmpty
    · rw [if_pos hemp]
    · rw [if_neg hemp]
      rw [if_neg (fun hcon => hnotbool
        (fun c hc => (isBoolCell_iff c).1 (List.all_eq_true.1 hcon c hc)))]
      rw [if_neg (fun hcon => hnotnum
        (fun c hc => (isNumAbsCell_iff c).1 (List.all_eq_true.1 hcon c hc)))]
  · intro cells
    unfold classify
    split_ifs <;> simp

theorem C4_classify_amended_witness :
    ([Cell.boolean true, Cell.boolean false] ≠ ([] : List Cell)) ∧
      (∀ c ∈ [Cell.boolean true, Cell.boolean false], ∃ b, c = Cell.boolean b) ∧
      classify [Cell.boolean true, Cell.boolean false] = ColumnType.booleanCol ∧
      ([Cell.num 7, Cell.absent] ≠ ([] : List Cell)) ∧
      (∀ c ∈ [Cell.num 7, Cell.absent], c = Cell.absent ∨ ∃ q, c = Cell.num q) ∧
      classify [Cell.num 7, Cell.absent] = ColumnType.numeric :=
  ⟨by decide, by decide,
    C4_classify_amended.1 [Cell.boolean true, Cell.boolean false] (by decide) (by decide),
    by decide, by simp,
    C4_classify_amended.2.1 [Cell.num 7, Cell.absent] (by decide) (by decide) (by simp)⟩

/-! ### Claim C10 -/

/-- C10: every chart handler is a pure, stateless function of the table
and the selected axes: a click leaves the application state unchanged, and
repeating a request — directly or after any other request — returns an
identical result. -/
theorem C10_handlers_pure (s : AppState) (k1 k2 : ChartKind) (x1 y1 x2 y2 : String) :
    (handleClick s k1 x1 y1).2 = s ∧
      (handleClick (handleClick s k1 x1 y1).2 k2 x2 y2).1 = (handleClick s k2 x2 y2).1 ∧
      (handleClick (handleClick s k1 x1 y1).2 k1 x1 y1).1 = (handleClick s k1 x1 y1).1 :=
  ⟨rfl, rfl, rfl⟩

/-! ### Claims C5 and C6 -/

theorem numericVals_length_of_numeric (cells : List Cell)
    (h : ∀ c ∈ cells, c = Cell.absent ∨ ∃ q, c = Cell.num q) :
    (numericVals cells).length = (cells.filter (fun c => decide (c ≠ Cell.absent))).length := by
  induction cells with
  | nil => rfl
  | cons c cells ih =>
    have hc := h c (List.mem_cons_self c cells)
    have htail := ih (fun x hx => h x (List.mem_cons_of_mem _ hx))
    rcases hc with rfl | ⟨q, rfl⟩
    · simpa [numericVals, List.filter_cons] using htail
    · simpa [numericVals, List.filter_cons] using htail

/-- C5 fails on the code: numpy's histogram does not collapse a
degenerate (all-equal) value column into a single bin; it widens the
range by ±1/2 and still produces the requested 20 bins. -/
theorem C5_histogram_counterexample :
    (histogram [Cell.num 5, Cell.num 5, Cell.num 5] 20).2.length = 20 ∧ (20 : ℕ) ≠ 1 := by
  constructor
  · simp [histogram]
  · decide

/-- C5 (amended): on a value column whose non-absent values all coincide,
the histogram still has binCount equal-width bins — numpy widens the
degenerate range to `[v − 1/2, v + 1/2]` — and all the values land in one
single bin, the remaining bins being empty (their counts total the number
of values). -/
theorem C5_histogram_degenerate (cells : List Cell) (v : ℚ) (bc : ℕ)
    (hbc : 1 ≤ bc) (hne : numericVals cells ≠ [])
    (hall : ∀ x ∈ numericVals cells, x = v) :
    (histogram cells bc).2.length = bc ∧
      (histogram cells bc).2.sum = (numericVals cells).length ∧
      (∃ i, i < bc ∧ (histogram cells bc).2.getD i 0 = (numericVals cells).length) := by
  refine ⟨by simp [histogram], hist_counts_sum cells bc hbc, ?_⟩
  have hvmem : v ∈ numericVals cells := by
    obtain ⟨x, xs, hval⟩ := List.exists_cons_of_ne_nil hne
    have hx : x ∈ numericVals cells := by rw [hval]; exact List.mem_cons_self x xs
    have hxv := hall x hx
    rwa [← hxv]
  obtain ⟨i0, ⟨hi0, hhit⟩, _⟩ := binHit_existsUnique hbc
    (histBounds_fst_lt_snd (numericVals cells)) (histBounds_le hvmem).1 (histBounds_le hvmem).2
  refine ⟨i0, hi0, ?_⟩
  have hlen : i0 < (histogram cells bc).2.length := by simpa [histogram] using hi0
  rw [List.getD_eq_getElem _ _ hlen]
  simp only [histogram, List.getElem_map, List.getElem_range]
  have hfull : (numericVals cells).filter
      (fun x => decide (binHit (histBounds (numericVals cells)).1
        (((histBounds (numericVals cells)).2 - (histBounds (numericVals cells)).1) / (bc : ℚ))
        bc i0 x)) = numericVals cells := by
    apply List.filter_eq_self.2
    intro a ha
    rw [hall a ha]
    exact decide_eq_true hhit
  rw [hfull]

theorem C5_histogram_degenerate_witness :
    1 ≤ 20 ∧ numericVals [Cell.num 5, Cell.num 5, Cell.num 5] ≠ [] ∧
      (∀ x ∈ numericVals [Cell.num 5, Cell.num 5, Cell.num 5], x = 5) ∧
      (histogram [Cell.num 5, Cell.num 5, Cell.num 5] 20).2.length = 20 ∧
      (histogram [Cell.num 5, Cell.num 5, Cell.num 5] 20).2.sum
        = (numericVals [Cell.num 5, Cell.num 5, Cell.num 5]).length ∧
      (∃ i, i < 20 ∧ (histogram [Cell.num 5, Cell.num 5, Cell.num 5] 20).2.getD i 0
        = (numericVals [Cell.num 5, Cell.num 5, Cell.num 5]).length) :=
  ⟨by decide, by decide, by decide,
    C5_histogram_degenerate [Cell.num 5, Cell.num 5, Cell.num 5] 5 20
      (by decide) (by decide) (by decide)⟩

/-- C6: for every table, numeric value column and binCount ≥ 1, the
histogram's per-bin counts sum to the number of non-absent values: the
half-open bins with a doubly-closed last bin drop no value. -/
theorem C6_histogram_counts_total (cells : List Cell) (bc : ℕ) (hbc : 1 ≤ bc)
    (hnum : ∀ c ∈ cells, c = Cell.absent ∨ ∃ q, c = Cell.num q) :
    (histogram cells bc).2.sum = (cells.filter (fun c => decide (c ≠ Cell.absent))).length := by
  rw [hist_counts_sum cells bc hbc]
  exact numericVals_length_of_numeric cells hnum

theorem C6_histogram_counts_total_witness :
    1 ≤ 2 ∧
      (∀ c ∈ [Cell.num 0, Cell.absent, Cell.num 1, Cell.num 4],
        c = Cell.absent ∨ ∃ q, c = Cell.num q) ∧
      (histogram [Cell.num 0, Cell.absent, Cell.num 1, Cell.num 4] 2).2.sum
        = ([Cell.num 0, Cell.absent, Cell.num 1, Cell.num 4].filter
            (fun c => decide (c ≠ Cell.absent))).length :=
  ⟨by decide, by simp,
    C6_histogram_counts_total [Cell.num 0, Cell.absent, Cell.num 1, Cell.num 4] 2
      (by decide) (by simp)⟩

/-! ### Claims C2 and C3 -/

theorem countOcc_filter_ne_absent (cells : List Cell) {k : Cell} (hk : k ≠ Cell.absent) :
    countOcc (cells.filter (fun c => decide (c ≠ Cell.absent))) k = countOcc cells k := by
  unfold countOcc
  rw [List.filter_filter]
  congr 1
  apply List.filter_congr
  intro c _
  by_cases hc : c = k
  · subst hc
    simp [hk]
  · simp [hc]

/-- C2 fails on the code: `value_counts()` drops NaN by default
(`dropna=True`), so absent values are never counted as their own
category — a column with two absent cells and one "a" yields the single
entry ("a", 1), not a two-entry ranking led by the absent category. -/
theorem C2_topNFrequency_counterexample :
    topNFrequency [Cell.absent, Cell.absent, Cell.str "a"] 10 = [(Cell.str "a", 1)] ∧
      (topNFrequency [Cell.absent, Cell.absent, Cell.str "a"] 10).length ≠ 2 ∧
      (∀ p ∈ topNFrequency [Cell.absent, Cell.absent, Cell.str "a"] 10,
        p.1 ≠ Cell.absent) := by
  decide

/-- C2 (amended): `topNFrequency` counts the occurrences of each distinct
non-absent value (absent values are excluded, pandas `dropna=True`),
sorts descending by count with ties in first-encountered order, and
truncates to n entries, so the result length is `min n (number of
distinct non-absent values)` — with n = 10 and 15 distinct values,
exactly 10 entries, sorted by descending count. -/
theorem C2_topNFrequency_amended (cells : List Cell) (n : ℕ) :
    (topNFrequency cells n).length
        = min n (dedupFE (cells.filter (fun c => decide (c ≠ Cell.absent)))).length ∧
      List.Sorted freqGe (topNFrequency cells n) ∧
      (∀ p ∈ topNFrequency cells n,
        p.1 ≠ Cell.absent ∧ p.1 ∈ cells ∧ p.2 = countOcc cells p.1) ∧
      (dedupFE (cells.filter (fun c => decide (c ≠ Cell.absent)))).Nodup ∧
      (∀ c : Cell, c ∈ dedupFE (cells.filter (fun c => decide (c ≠ Cell.absent)))
        ↔ (c ≠ Cell.absent ∧ c ∈ cells)) := by
  refine ⟨?_, ?_, ?_, nodup_dedupFE _, ?_⟩
  · unfold topNFrequency valueCounts
    rw [List.length_take]
    congr 1
    rw [(List.perm_insertionSort freqGe _).length_eq, List.length_map]
  · unfold topNFrequency valueCounts
    exact (List.sorted_insertionSort freqGe _).sublist (List.take_sublist _ _)
  · intro p hp
    unfold topNFrequency valueCounts at hp
    have hmem := List.mem_of_mem_take hp
    rw [(List.perm_insertionSort freqGe _).mem_iff] at hmem
    obtain ⟨k, hk, rfl⟩ := List.mem_map.1 hmem
    rw [mem_dedupFE, List.mem_filter, decide_eq_true_eq] at hk
    refine ⟨hk.2, hk.1, ?_⟩
    show countOcc _ k = countOcc cells k
    exact countOcc_filter_ne_absent cells hk.2
  · intro c
    rw [mem_dedupFE, List.mem_filter, decide_eq_true_eq]
    tauto

theorem C2_topNFrequency_amended_witness :
    ((Cell.str "a", 2) ∈ topNFrequency [Cell.str "a", Cell.str "b", Cell.str "a"] 2) ∧
      ((Cell.str "a", 2).1 ≠ Cell.absent ∧
        (Cell.str "a", 2).1 ∈ [Cell.str "a", Cell.str "b", Cell.str "a"] ∧
        (Cell.str "a", 2).2 = countOcc [Cell.str "a", Cell.str "b", Cell.str "a"]
          (Cell.str "a", 2).1) ∧
      (topNFrequency [Cell.str "a", Cell.str "b", Cell.str "a"] 2).length
        = min 2 (dedupFE ([Cell.str "a", Cell.str "b", Cell.str "a"].filter
            (fun c => decide (c ≠ Cell.absent)))).length :=
  ⟨by decide,
    (C2_topNFrequency_amended [Cell.str "a", Cell.str "b", Cell.str "a"] 2).2.2.1
      (Cell.str "a", 2) (by decide),
    (C2_topNFrequency_amended [Cell.str "a", Cell.str "b", Cell.str "a"] 2).1⟩

/-- C3 fails on the code: `groupby` sorts group keys ascending by default
(`sort=True`), so the output labels are not in first-encountered order —
on a column whose keys appear in the order 2, 1, the output order is
1, 2. -/
theorem C3_groupMeans_counterexample :
    (groupMeans [("g", [Cell.num 2, Cell.num 1]), ("v", [Cell.num 10, Cell.num 20])] "g" "v").1
        = [Cell.num 1, Cell.num 2] ∧
      dedupFE ((getCol [("g", [Cell.num 2, Cell.num 1]), ("v", [Cell.num 10, Cell.num 20])] "g"
          ).filter (fun c => decide (c ≠ Cell.absent)))
        = [Cell.num 2, Cell.num 1] ∧
      (groupMeans [("g", [Cell.num 2, Cell.num 1]), ("v", [Cell.num 10, Cell.num 20])] "g" "v").1
        ≠ [Cell.num 2, Cell.num 1] := by
  decide

/-- C3 (amended): `groupMeans` partitions the rows by distinct non-absent
value of the group-by column and computes the arithmetic mean of the
value column per group, rows with an absent value cell excluded; the
groups are emitted in ascending key order (pandas sorts group keys), not
in first-encountered order. -/
theorem C3_groupMeans_amended (t : Table) (g v : String) :
    (∀ c : Cell, c ∈ (groupMeans t g v).1 ↔ (c ≠ Cell.absent ∧ c ∈ getCol t g)) ∧
      List.Sorted cellLe (groupMeans t g v).1 ∧
      (groupMeans t g v).1.Nodup ∧
      (groupMeans t g v).2.length = (groupMeans t g v).1.length ∧
      (∀ i, i < (groupMeans t g v).1.length →
        (groupMeans t g v).2.getD i none
          = meanOpt (numericVals (((getCol t g).zip (getCol t v)).filterMap
              (fun p => if p.1 = (groupMeans t g v).1.getD i Cell.absent then some p.2
                else none)))) := by
  have h1 : (groupMeans t g v).1 = List.insertionSort cellLe
      (dedupFE ((getCol t g).filter (fun c => decide (c ≠ Cell.absent)))) := by
    simp [groupMeans]
  have h2 : (groupMeans t g v).2 = (groupMeans t g v).1.map
      (fun k => meanOpt (numericVals (((getCol t g).zip (getCol t v)).filterMap
        (fun p => if p.1 = k then some p.2 else none)))) := by
    simp [groupMeans]
  refine ⟨?_, ?_, ?_, ?_, ?_⟩
  · intro c
    rw [h1, (List.perm_insertionSort cellLe _).mem_iff, mem_dedupFE, List.mem_filter,
      decide_eq_true_eq]
    tauto
  · rw [h1]
    exact List.sorted_insertionSort cellLe _
  · rw [h1]
    exact (List.perm_insertionSort cellLe _).nodup_iff.2 (nodup_dedupFE _)
  · rw [h2, List.length_map]
  · intro i hi
    rw [h2]
    rw [List.getD_eq_getElem _ _ (by rw [List.length_map]; exact hi), List.getElem_map]
    rw [List.getD_eq_getElem _ _ hi]

theorem C3_groupMeans_amended_witness :
    0 < (groupMeans [("g", [Cell.num 2, Cell.num 1]), ("v", [Cell.num 10, Cell.num 20])]
        "g" "v").1.length ∧
      (groupMeans [("g", [Cell.num 2, Cell.num 1]), ("v", [Cell.num 10, Cell.num 20])]
          "g" "v").2.getD 0 none
        = meanOpt (numericVals (((getCol [("g", [Cell.num 2, Cell.num 1]),
            ("v", [Cell.num 10, Cell.num 20])] "g").zip
              (getCol [("g", [Cell.num 2, Cell.num 1]), ("v", [Cell.num 10, Cell.num 20])] "v")
            ).filterMap
            (fun p => if p.1 = (groupMeans [("g", [Cell.num 2, Cell.num 1]),
                ("v", [Cell.num 10, Cell.num 20])] "g" "v").1.getD 0 Cell.absent
              then some p.2 else none))) :=
  ⟨by decide,
    (C3_groupMeans_amended [("g", [Cell.num 2, Cell.num 1]), ("v", [Cell.num 10, Cell.num 20])]
      "g" "v").2.2.2.2 0 (by decide)⟩

/-! ### Claim C8 -/

theorem getD_map_of_lt {α β : Type} (f : α → β) (l : List α) (d : β) {i : ℕ}
    (h : i < l.length) (dd : α) : (l.map f).getD i d = f (l.getD i dd) := by
  rw [List.getD_eq_getElem (l.map f) d (by simpa using h), List.getElem_map,
    List.getD_eq_getElem l dd h]

theorem corrMatrixRaw_entry (t : Table) (cols : List String) {i j : ℕ}
    (hi : i < cols.length) (hj : j < cols.length) :
    ((corrMatrixRaw t cols).getD i []).getD j 0
      = pearson (optVals (getCol t (cols.getD i ""))) (optVals (getCol t (cols.getD j ""))) := by
  unfold corrMatrixRaw
  rw [getD_map_of_lt _ cols ([] : List ℝ) hi ""]
  rw [getD_map_of_lt _ cols (0 : ℝ) hj ""]

/-- C8: whenever at least two numeric columns are selected, the heatmap
handler returns the correlation matrix; that matrix is symmetric
(M[i][j] = M[j][i] for all in-range i, j), and every diagonal entry whose
column has positive variance over its observed rows equals 1. -/
theorem C8_correlation_symmetric (t : Table) (cols : List String) (h2 : 2 ≤ cols.length) :
    correlationMatrix t cols = Except.ok (corrMatrixRaw t cols) ∧
      (∀ i j, i < cols.length → j < cols.length →
        ((corrMatrixRaw t cols).getD i []).getD j 0
          = ((corrMatrixRaw t cols).getD j []).getD i 0) ∧
      (∀ i, i < cols.length →
        0 < varFst (pairedObs (optVals (getCol t (cols.getD i "")))
            (optVals (getCol t (cols.getD i "")))) →
        ((corrMatrixRaw t cols).getD i []).getD i 0 = 1) := by
  refine ⟨?_, ?_, ?_⟩
  · unfold correlationMatrix
    rw [if_pos (by omega)]
  · intro i j hi hj
    rw [corrMatrixRaw_entry t cols hi hj, corrMatrixRaw_entry t cols hj hi]
    exact pearson_comm _ _
  · intro i hi hvar
    rw [corrMatrixRaw_entry t cols hi hi]
    exact pearson_self hvar

theorem C8_correlation_symmetric_witness :
    2 ≤ (["x", "y"] : List String).length ∧
      0 < varFst (pairedObs
          (optVals (getCol [("x", [Cell.num 1, Cell.num 2]), ("y", [Cell.num 1, Cell.num 3])]
            ((["x", "y"] : List String).getD 0 "")))
          (optVals (getCol [("x", [Cell.num 1, Cell.num 2]), ("y", [Cell.num 1, Cell.num 3])]
            ((["x", "y"] : List String).getD 0 "")))) ∧
      correlationMatrix [("x", [Cell.num 1, Cell.num 2]), ("y", [Cell.num 1, Cell.num 3])]
          ["x", "y"]
        = Except.ok (corrMatrixRaw [("x", [Cell.num 1, Cell.num 2]),
            ("y", [Cell.num 1, Cell.num 3])] ["x", "y"]) ∧
      ((corrMatrixRaw [("x", [Cell.num 1, Cell.num 2]), ("y", [Cell.num 1, Cell.num 3])]
          ["x", "y"]).getD 0 []).getD 1 0
        = ((corrMatrixRaw [("x", [Cell.num 1, Cell.num 2]), ("y", [Cell.num 1, Cell.num 3])]
            ["x", "y"]).getD 1 []).getD 0 0 ∧
      ((corrMatrixRaw [("x", [Cell.num 1, Cell.num 2]), ("y", [Cell.num 1, Cell.num 3])]
          ["x", "y"]).getD 0 []).getD 0 0 = 1 := by
  have hopt : optVals (getCol [("x", [Cell.num 1, Cell.num 2]), ("y", [Cell.num 1, Cell.num 3])]
      ((["x", "y"] : List String).getD 0 "")) = [some 1, some 2] := by decide
  have hpair : pairedObs [some (1 : ℚ), some 2] [some (1 : ℚ), some 2]
      = [(1, 1), (2, 2)] := by decide
  have hvar : 0 < varFst (pairedObs
      (optVals (getCol [("x", [Cell.num 1, Cell.num 2]), ("y", [Cell.num 1, Cell.num 3])]
        ((["x", "y"] : List String).getD 0 "")))
      (optVals (getCol [("x", [Cell.num 1, Cell.num 2]), ("y", [Cell.num 1, Cell.num 3])]
        ((["x", "y"] : List String).getD 0 "")))) := by
    rw [hopt, hpair]
    norm_num [varFst, covQ, List.map_cons, List.map_nil, List.sum_cons, List.sum_nil]
  refine ⟨by decide, hvar, ?_, ?_, ?_⟩
  · exact (C8_correlation_symmetric _ ["x", "y"] (by decide)).1
  · exact (C8_correlation_symmetric _ ["x", "y"] (by decide)).2.1 0 1 (by decide) (by decide)
  · exact (C8_correlation_symmetric _ ["x", "y"] (by decide)).2.2 0 (by decide) hvar

/-! ### Claim C9 -/

theorem quantileSorted_eval (s : List ℚ) (p pos : ℚ) (i : ℕ)
    (hne : s.isEmpty = false)
    (hpos : ((s.length : ℚ) - 1) * p = pos)
    (hfl : ⌊pos⌋ = (i : ℤ))
    (hlt : i + 1 < s.length) :
    quantileSorted s p
      = some (s.getD i 0 + (pos - (i : ℚ)) * (s.getD (i + 1) 0 - s.getD i 0)) := by
  simp only [quantileSorted]
  rw [hpos, hfl, Int.toNat_natCast]
  rw [if_neg (by simp [hne]), if_pos hlt]

/-- C9 fails on the code in one point: `describe()` uses the sample
standard deviation with denominator n − 1, which pandas leaves as NaN
(an absent summary field) when the non-absent count is ≤ 1; it is not
defined as 0 there. -/
theorem C9_std_counterexample :
    (summarizeNumeric [Cell.num 5]).std = none ∧
      (summarizeNumeric [Cell.num 5]).std ≠ some 0 := by
  have h : sampleVar (numericVals [Cell.num 5]) = none := by
    simp [sampleVar, numericVals]
  constructor <;> simp [summarizeNumeric, h]

/-- C9 (amended): the numeric summary of the non-absent values
[1,2,3,4,5] has mean 3, median 3, first quartile 2, third quartile 4, and
sample standard deviation √(5/2) ≈ 1.58 (within 1/100); quantiles use
linear interpolation at position (n−1)·p over the sorted values; and the
standard deviation is an absent field (NaN), not 0, whenever the
non-absent count is ≤ 1. -/
theorem C9_numeric_summary_amended :
    (summarizeNumeric [Cell.num 1, Cell.num 2, Cell.num 3, Cell.num 4, Cell.num 5]).mean
        = some 3 ∧
      (summarizeNumeric [Cell.num 1, Cell.num 2, Cell.num 3, Cell.num 4, Cell.num 5]).median
        = some 3 ∧
      (∃ s : ℝ,
        (summarizeNumeric [Cell.num 1, Cell.num 2, Cell.num 3, Cell.num 4, Cell.num 5]).std
            = some s ∧
          |s - 1.58| < 1 / 100) ∧
      (summarizeNumeric [Cell.num 1, Cell.num 2, Cell.num 3, Cell.num 4, Cell.num 5]).q1
        = some 2 ∧
      (summarizeNumeric [Cell.num 1, Cell.num 2, Cell.num 3, Cell.num 4, Cell.num 5]).q3
        = some 4 ∧
      (∀ cells : List Cell, (numericVals cells).length ≤ 1 →
        (summarizeNumeric cells).std = none) := by
  have hvals : numericVals [Cell.num 1, Cell.num 2, Cell.num 3, Cell.num 4, Cell.num 5]
      = [1, 2, 3, 4, 5] := rfl
  have hsort : sortQ [1, 2, 3, 4, 5] = [(1 : ℚ), 2, 3, 4, 5] := by decide
  refine ⟨?_, ?_, ?_, ?_, ?_, ?_⟩
  · simp only [summarizeNumeric, hvals]
    norm_num [meanOpt, List.sum_cons, List.sum_nil]
  · simp only [summarizeNumeric, hvals, quantileQ, hsort]
    rw [quantileSorted_eval [(1 : ℚ), 2, 3, 4, 5] (1 / 2) 2 2 rfl (by norm_num) (by simp)
      (by norm_num)]
    norm_num [List.getD]
  · have hsv : sampleVar [(1 : ℚ), 2, 3, 4, 5] = some (5 / 2) := by
      unfold sampleVar
      rw [if_neg (by norm_num)]
      norm_num [List.sum_cons, List.sum_nil, List.map_cons, List.map_nil]
    have hstd : (summarizeNumeric
        [Cell.num 1, Cell.num 2, Cell.num 3, Cell.num 4, Cell.num 5]).std
          = some (Real.sqrt ((5 / 2 : ℚ) : ℝ)) := by
      simp only [summarizeNumeric, hvals, hsv]
      rfl
    refine ⟨Real.sqrt ((5 / 2 : ℚ) : ℝ), hstd, ?_⟩
    have hc : ((5 / 2 : ℚ) : ℝ) = 5 / 2 := by norm_num
    rw [hc]
    have h1 : (1.58 : ℝ) < Real.sqrt (5 / 2) :=
      (Real.lt_sqrt (by norm_num)).2 (by norm_num)
    have h2 : Real.sqrt ((5 : ℝ) / 2) < 1.59 :=
      (Real.sqrt_lt' (by norm_num)).2 (by norm_num)
    rw [abs_lt]
    constructor <;> [linarith; linarith]
  · simp only [summarizeNumeric, hvals, quantileQ, hsort]
    rw [quantileSorted_eval [(1 : ℚ), 2, 3, 4, 5] (1 / 4) 1 1 rfl (by norm_num) (by simp)
      (by norm_num)]
    norm_num [List.getD]
  · simp only [summarizeNumeric, hvals, quantileQ, hsort]
    rw [quantileSorted_eval [(1 : ℚ), 2, 3, 4, 5] (3 / 4) 3 3 rfl (by norm_num) (by simp)
      (by norm_num)]
    norm_num [List.getD]
  · intro cells h
    simp [summarizeNumeric, sampleVar, h]

theorem C9_numeric_summary_amended_witness :
    (numericVals [Cell.num 5]).length ≤ 1 ∧ (summarizeNumeric [Cell.num 5]).std = none :=
  ⟨by decide, C9_numeric_summary_amended.2.2.2.2.2 [Cell.num 5] (by decide)⟩
